import Mathlib

/-!
# Verification of `app_vendedores.py`

A shallow embedding of the core logic of the sales dashboard
`app_vendedores.py`: column-role guessing, the interactive column mapping
with its rename dictionary, numeric coercion, the required-column check,
region/salesperson filtering with cascading options, and group-by
aggregation with percentage-of-total computation.

Modelling conventions:
* A cell of a grouping column (`region`, `vendedor`) is modelled by its
  pandas value abstracted to the string it prints as, or `missing` (NaN).
  `astype(str)` turns a NaN cell into the literal string `"nan"`, which the
  model reproduces.
* Numeric cells (`unidades`, `ventas`) are `Option ℚ` (`none` = NaN);
  pandas sums skip NaN, modelled by summing `Option.getD 0`.
* Python dictionaries are modelled by their final lookup function: a later
  insertion with the same key overwrites an earlier one.
* Python `round`/numpy `.round(2)` is round-half-to-even on exact
  rationals, modelled by `roundHalfEven`/`round2`.
* The Python set `{"region","vendedor","unidades","ventas"}` iterates in an
  unspecified order; it is modelled as a list in insertion order. All
  statements about it only use membership.
-/

/-- A cell of a grouping column: a (stringified) value or missing (NaN). -/
inductive SCell where
  | s (v : String)
  | missing
deriving DecidableEq, Repr

/-- Stringification `str(cell)` as pandas `astype(str)` performs it: a NaN cell prints as
the literal string `"nan"`. -/
def SCell.strOf : SCell → String
  | .s v => v
  | .missing => "nan"

/-- The value of a non-missing cell; `none` on NaN.  Used by `dropna`-style
operations and by `groupby(..., dropna=True)`. -/
def SCell.str? : SCell → Option String
  | .s v => some v
  | .missing => none

/-- A row of the mapped table: the four canonical columns the dashboard
uses after renaming (`fecha` plays no role in any verified component). -/
structure Row where
  region : SCell
  vendedor : SCell
  unidades : Option ℚ
  ventas : Option ℚ
deriving DecidableEq, Repr

/-- A record table: an ordered sequence of rows. -/
abbrev Table := List Row

/-- The sentinel offered by the region selector meaning "no filter"
(`"(Todas)"` in the source). -/
def regionAll : String := "(Todas)"

/-- The sentinel offered by the salesperson selector meaning "no filter"
(`"(Todos)"` in the source). -/
def vendedorAll : String := "(Todos)"

/-- The row mask of the filter engine:
`mask = True; if reg_sel != "(Todas)": mask &= df["region"].astype(str).eq(reg_sel)`
and likewise for the salesperson selection. -/
def rowMask (regSel vendSel : String) (r : Row) : Bool :=
  (if regSel = regionAll then true else r.region.strOf == regSel)
  && (if vendSel = vendedorAll then true else r.vendedor.strOf == vendSel)

/-- Filtering `df_f = df.loc[mask]`: the table narrowed to the rows the mask keeps. -/
def applyFilters (t : Table) (regSel vendSel : String) : Table :=
  t.filter (rowMask regSel vendSel)

/-- Lexicographic order on strings used by the model of Python `sorted`. -/
def strLt (a b : String) : Bool := compare a b == .lt

/-- Insertion into a lexicographically sorted list of strings (Python
`sorted` sorts by `<`). -/
def insertStr (a : String) : List String → List String
  | [] => [a]
  | b :: l => if strLt b a then b :: insertStr a l else a :: b :: l

/-- Insertion sort on strings, modelling Python `sorted`. -/
def sortStr : List String → List String
  | [] => []
  | a :: l => insertStr a (sortStr l)

/-- The cascading salesperson option values:
`origen = df if reg_sel=="(Todas)" else df[df["region"].astype(str)==reg_sel]`
then `sorted(origen["vendedor"].dropna().astype(str).unique().tolist())`. -/
def vendOptValues (t : Table) (regSel : String) : List String :=
  let origen := if regSel = regionAll then t
                else t.filter (fun r => r.region.strOf == regSel)
  sortStr (origen.filterMap (fun r => r.vendedor.str?)).dedup

/-- The full salesperson option list shown by the selector:
`["(Todos)"] + vendOptValues`. -/
def vendOpts (t : Table) (regSel : String) : List String :=
  vendedorAll :: vendOptValues t regSel

theorem mem_insertStr (x a : String) (l : List String) :
    x ∈ insertStr a l ↔ x = a ∨ x ∈ l := by
  induction l with
  | nil => simp [insertStr]
  | cons b l ih =>
      by_cases h : strLt b a
      · simp [insertStr, h, ih]
        tauto
      · simp [insertStr, h]

theorem mem_sortStr (x : String) (l : List String) :
    x ∈ sortStr l ↔ x ∈ l := by
  induction l with
  | nil => simp [sortStr]
  | cons a l ih => simp [sortStr, mem_insertStr, ih]

/-- C4: a row is kept by `applyFilters` iff it is a row of the table, the
region selection is the no-filter sentinel or the row's region stringifies
to it, and the salesperson selection is the no-filter sentinel or the row's
salesperson stringifies to it. -/
theorem applyFilters_mem_iff (t : Table) (regSel vendSel : String) (r : Row) :
    r ∈ applyFilters t regSel vendSel ↔
      r ∈ t ∧ (regSel = regionAll ∨ r.region.strOf = regSel)
            ∧ (vendSel = vendedorAll ∨ r.vendedor.strOf = vendSel) := by
  unfold applyFilters rowMask
  rw [List.mem_filter]
  by_cases hr : regSel = regionAll <;> by_cases hv : vendSel = vendedorAll <;>
    simp [hr, hv, beq_iff_eq]

/-- C3: every salesperson option offered by the cascading selector, other
than the no-filter sentinel, occurs in a row of the table whose region
stringifies to the selected region (when that selection is not the
no-filter sentinel). -/
theorem vendOpts_cascading (t : Table) (regSel : String) (o : String)
    (hreg : regSel ≠ regionAll) (ho : o ∈ vendOptValues t regSel) :
    ∃ r ∈ t, r.region.strOf = regSel ∧ r.vendedor.str? = some o := by
  simp only [vendOptValues, hreg, if_false, ite_false, mem_sortStr,
    List.mem_dedup, List.mem_filterMap, List.mem_filter, beq_iff_eq] at ho
  obtain ⟨r, ⟨hrt, hrreg⟩, hrv⟩ := ho
  exact ⟨r, hrt, hrreg, hrv⟩

/-- Concrete instantiation of `vendOpts_cascading`: on the spec's example
table, selecting region `"North"` offers `"Beto"`, who indeed appears in a
`"North"` row. -/
theorem vendOpts_cascading_witness :
    ("North" ≠ regionAll ∧
      "Beto" ∈ vendOptValues
        [⟨.s "North", .s "Ana", some 10, some 100⟩,
         ⟨.s "North", .s "Beto", some 5, some 50⟩,
         ⟨.s "South", .s "Ana", some 2, some 20⟩] "North") ∧
    ∃ r ∈ ([⟨.s "North", .s "Ana", some 10, some 100⟩,
            ⟨.s "North", .s "Beto", some 5, some 50⟩,
            ⟨.s "South", .s "Ana", some 2, some 20⟩] : Table),
      r.region.strOf = "North" ∧ r.vendedor.str? = some "Beto" :=
  ⟨⟨by decide, by decide⟩,
    vendOpts_cascading _ "North" "Beto" (by decide) (by decide)⟩

/-! ## Column mapper -/

/-- A raw column name of the loaded spreadsheet: a string, or a non-string
label (pandas admits e.g. integer column names). -/
inductive RawCol where
  | str (s : String)
  | nonstr (tag : ℕ)
deriving DecidableEq, Repr

/-- Selection `cols = [c for c in df.columns if isinstance(c, str)]`: the
string-named columns, in order. -/
def strCols (l : List RawCol) : List String :=
  l.filterMap fun c => match c with | .str s => some s | .nonstr _ => none

/-- Lowercasing of one character as Python `str.lower` performs it on the
ASCII and Latin-1 letter ranges (`A`-`Z` and `À`-`Þ` except `×` map 32 code
points up), which covers the app's Spanish keywords and headers; other
characters are left unchanged. -/
def pyToLower (c : Char) : Char :=
  if 65 ≤ c.toNat ∧ c.toNat ≤ 90 then Char.ofNat (c.toNat + 32)
  else if 192 ≤ c.toNat ∧ c.toNat ≤ 222 ∧ c.toNat ≠ 215 then Char.ofNat (c.toNat + 32)
  else c

/-- Normalization `c.lower().strip()`: lowercase the characters, then trim
surrounding whitespace (implemented on the character list so that it
evaluates by kernel reduction; e.g. `normName "REGIÓN" = "región"`). -/
def normName (s : String) : String :=
  ⟨(((s.data.map pyToLower).dropWhile Char.isWhitespace).reverse.dropWhile
      Char.isWhitespace).reverse⟩

/-- Dictionary `lookup = \x7bc.lower().strip(): c for c in cols\x7d` queried at key `k`: the
dictionary keeps, for each normalized name, the LAST column inserted with
it, so the lookup finds the last matching column. -/
def colLookup (cols : List String) (k : String) : Option String :=
  cols.reverse.find? (fun c => normName c == k)

/-- Loop `def guess(keys): for k in keys: if k in lookup: return lookup[k];
return None`. -/
def guess (cols : List String) : List String → Option String
  | [] => none
  | k :: ks =>
      match colLookup cols k with
      | some c => some c
      | none => guess cols ks

/-- Function `guess` run on the string-named columns of the raw header, as the app
does. -/
def guessRaw (raw : List RawCol) (keys : List String) : Option String :=
  guess (strCols raw) keys

def regionKeys : List String := ["región", "region", "zona", "area"]

def vendedorKeys : List String :=
  ["vendedor", "ejecutivo", "asesor", "salesperson", "nombre",
   "nombre vendedor", "vendedores"]

def unidadesKeys : List String := ["unidades vendidas", "unidades", "qty", "cantidad"]

def ventasKeys : List String := ["ventas totales", "ventas", "monto", "sales", "importe"]

def fechaKeys : List String := ["fecha", "date"]

/-- The default value a role selectbox starts on:
`index = (cols.index(g) if g in cols else 0)` over `options = cols`, so the
guessed column when the guess succeeded, else the first column. -/
def defaultSel (cols : List String) (g : Option String) : String :=
  match g with
  | some c => if c ∈ cols then c else cols.headD ""
  | none => cols.headD ""

/-- A confirmed role-to-column mapping: the four selections plus the
optional date column. -/
structure Mapping where
  cRegion : String
  cVend : String
  cUnid : String
  cVentas : String
  cFecha : Option String
deriving DecidableEq, Repr

/-- The lookup function of
`rename_map = {c_region:"region", c_vend:"vendedor", c_unid:"unidades", c_ventas:"ventas"}`
(plus `fecha` when chosen): a Python dict keyed by raw column name, so a
later role inserted with the same key overwrites an earlier one — queries
check the insertion order backwards. -/
def renameLookup (cR cV cU cS : String) (cF : Option String) (c : String) :
    Option String :=
  if cF = some c then some "fecha"
  else if c = cS then some "ventas"
  else if c = cU then some "unidades"
  else if c = cV then some "vendedor"
  else if c = cR then some "region"
  else none

/-- Renaming `df.rename(columns=rename_map)` on the column names: mapped names are
replaced, others are untouched. -/
def renameCols (m : String → Option String) (cols : List String) : List String :=
  cols.map (fun c => (m c).getD c)

/-- The rename lookup a confirmed mapping induces;
`if use_fecha and c_fecha:` makes the date entry conditional on a truthy
(non-empty) date column name. -/
def mappingRename (m : Mapping) : String → Option String :=
  renameLookup m.cRegion m.cVend m.cUnid m.cVentas
    (match m.cFecha with
     | some f => if f = "" then none else some f
     | none => none)

/-- Set `needed = \x7b"region","vendedor","unidades","ventas"\x7d`, modelled as a
list in insertion order (Python set iteration order is unspecified; every
statement below uses only membership). -/
def neededCols : List String := ["region", "vendedor", "unidades", "ventas"]

/-- Comprehension `missing = [c for c in needed if c not in df.columns]`. -/
def missingCols (cols : List String) : List String :=
  neededCols.filter (fun c => ¬ c ∈ cols)

/-- Check `if missing: st.error(...missing...); st.stop()`: processing halts with
the missing list exactly when it is non-empty (lines 66-70 in isolation). -/
def checkRequired (cols : List String) : Except (List String) Unit :=
  if missingCols cols = [] then .ok () else .error (missingCols cols)

/-- How the program halts on a post-mapping column set: an uncaught
`KeyError` raised by a `df[...]` access (lines 58-59), or the
required-column error message of lines 68-69. -/
inductive HaltMissing where
  | keyError (c : String)
  | missingError (cs : List String)
deriving DecidableEq, Repr

/-- The whole post-rename error path, lines 58-70: line 58 accesses
`df["unidades"]` and raises `KeyError` if that column is absent, line 59
likewise for `df["ventas"]`; only when both accesses succeed does the
required-column check of lines 66-70 run. -/
def afterMappingCheck (cols : List String) : Except HaltMissing Unit :=
  if "unidades" ∈ cols then
    if "ventas" ∈ cols then
      match checkRequired cols with
      | .ok () => .ok ()
      | .error m => .error (.missingError m)
    else .error (.keyError "ventas")
  else .error (.keyError "unidades")

/-- The default (guessed/fallback) mapping the sidebar starts from, lines
41-52 of the source. -/
def defaultMapping (raw : List RawCol) : Mapping :=
  let cols := strCols raw
  let gF := guess cols fechaKeys
  { cRegion := defaultSel cols (guess cols regionKeys)
    cVend := defaultSel cols (guess cols vendedorKeys)
    cUnid := defaultSel cols (guess cols unidadesKeys)
    cVentas := defaultSel cols (guess cols ventasKeys)
    cFecha := if gF.isSome then some (defaultSel cols gF) else none }

/-- The (string-named) column names after applying a confirmed mapping's
rename pass. -/
def mappedCols (raw : List RawCol) (m : Mapping) : List String :=
  renameCols (mappingRename m) (strCols raw)

/-- Lines 34-70 with the default selections: guess roles, rename, and run
the required-column check. -/
def defaultMappingCheck (raw : List RawCol) : Except (List String) Unit :=
  checkRequired (mappedCols raw (defaultMapping raw))

/-- The columns of the C2 scenario: `["Zona","Nombre","Unidades"]`, no
sales-like column. -/
def c2Raw : List RawCol := [.str "Zona", .str "Nombre", .str "Unidades"]

theorem colLookup_some {cols : List String} {k c : String}
    (h : colLookup cols k = some c) : c ∈ cols ∧ normName c = k := by
  unfold colLookup at h
  refine ⟨List.mem_reverse.mp (List.mem_of_find?_eq_some h), ?_⟩
  simpa [beq_iff_eq] using List.find?_some h

theorem guess_cons (cols : List String) (k : String) (ks : List String) :
    guess cols (k :: ks) = match colLookup cols k with
      | some c => some c
      | none => guess cols ks := rfl

theorem colLookup_none {cols : List String} {k : String} :
    colLookup cols k = none ↔ ∀ c ∈ cols, normName c ≠ k := by
  unfold colLookup
  rw [List.find?_eq_none]
  simp [beq_iff_eq]

/-- C7 (amended): the role guesser considers only the string-named columns;
it compares each keyword verbatim against the lowercased,
whitespace-trimmed column names (so normalization is applied to the column
side only); a returned column is a string-named column whose normalized
name equals some keyword of the list; the guesser returns absent exactly
when no keyword equals any normalized column name; and the first keyword in
list order that matches any column wins, wherever it sits in the list: if
no keyword of the prefix `pre` matches any column and `k` matches one, the
guesser run on `pre ++ k :: post` returns a column whose normalized name is
`k`. -/
theorem guess_characterization :
    (∀ (raw : List RawCol) (keys : List String) (c : String),
        guessRaw raw keys = some c →
          c ∈ strCols raw ∧ ∃ k ∈ keys, normName c = k) ∧
    (∀ (raw : List RawCol) (keys : List String),
        guessRaw raw keys = none ↔
          ∀ k ∈ keys, ∀ c ∈ strCols raw, normName c ≠ k) ∧
    (∀ (raw : List RawCol) (pre : List String) (k : String) (post : List String),
        (∀ k' ∈ pre, ∀ c ∈ strCols raw, normName c ≠ k') →
        (∃ c ∈ strCols raw, normName c = k) →
          ∃ c ∈ strCols raw,
            guessRaw raw (pre ++ k :: post) = some c ∧ normName c = k) := by
  refine ⟨?_, ?_, ?_⟩
  · intro raw keys
    induction keys with
    | nil => intro c h; simp [guessRaw, guess] at h
    | cons k ks ih =>
        intro c h
        unfold guessRaw guess at h
        cases hl : colLookup (strCols raw) k with
        | some c' =>
            rw [hl] at h
            obtain ⟨hc, hnorm⟩ := colLookup_some hl
            cases h
            exact ⟨hc, k, List.mem_cons_self k ks, hnorm⟩
        | none =>
            rw [hl] at h
            obtain ⟨hc, k', hk', hnorm⟩ := ih c h
            exact ⟨hc, k', List.mem_cons_of_mem k hk', hnorm⟩
  · intro raw keys
    induction keys with
    | nil => simp [guessRaw, guess]
    | cons k ks ih =>
        unfold guessRaw guess
        cases hl : colLookup (strCols raw) k with
        | some c' =>
            simp only []
            constructor
            · intro h; cases h
            · intro h
              obtain ⟨hc, hnorm⟩ := colLookup_some hl
              exact absurd hnorm (h k (List.mem_cons_self k ks) c' hc)
        | none =>
            simp only []
            have ih' : guess (strCols raw) ks = none ↔
                ∀ k ∈ ks, ∀ c ∈ strCols raw, normName c ≠ k := ih
            rw [ih']
            constructor
            · intro h k' hk' c hc
              rcases List.mem_cons.mp hk' with rfl | hk'
              · exact colLookup_none.mp hl c hc
              · exact h k' hk' c hc
            · intro h k' hk' c hc
              exact h k' (List.mem_cons_of_mem k hk') c hc
  · intro raw pre
    induction pre with
    | nil =>
        intro k post hpre hex
        cases hl : colLookup (strCols raw) k with
        | some c =>
            obtain ⟨hc, hnorm⟩ := colLookup_some hl
            refine ⟨c, hc, ?_, hnorm⟩
            rw [List.nil_append]
            show guess (strCols raw) (k :: post) = some c
            rw [guess_cons, hl]
        | none =>
            obtain ⟨c, hc, hnorm⟩ := hex
            exact absurd hnorm (colLookup_none.mp hl c hc)
    | cons k' pre ih =>
        intro k post hpre hex
        have hnone : colLookup (strCols raw) k' = none :=
          colLookup_none.mpr (fun c hc => hpre k' (List.mem_cons_self k' pre) c hc)
        have hskip : guessRaw raw ((k' :: pre) ++ k :: post)
            = guessRaw raw (pre ++ k :: post) := by
          show guess (strCols raw) ((k' :: pre) ++ k :: post)
              = guess (strCols raw) (pre ++ k :: post)
          rw [List.cons_append, guess_cons, hnone]
        obtain ⟨c, hc, hg, hnorm⟩ :=
          ih k post (fun x hx c hc => hpre x (List.mem_cons_of_mem k' hx) c hc) hex
        exact ⟨c, hc, by rw [hskip]; exact hg, hnorm⟩

/-- Concrete instantiation of `guess_characterization`: over the columns
`Zona, Nombre`, none of the first four vendedor keywords matches, so the
fifth keyword `"nombre"` — the first in list order that matches — wins and
the guesser returns a column normalizing to `"nombre"`. -/
theorem guess_characterization_witness :
    ((∀ k' ∈ (["vendedor", "ejecutivo", "asesor", "salesperson"] : List String),
        ∀ c ∈ strCols [.str "Zona", .str "Nombre"], normName c ≠ k') ∧
      ∃ c ∈ strCols [.str "Zona", .str "Nombre"], normName c = "nombre") ∧
    ∃ c ∈ strCols [.str "Zona", .str "Nombre"],
      guessRaw [.str "Zona", .str "Nombre"]
          (["vendedor", "ejecutivo", "asesor", "salesperson"]
            ++ "nombre" :: ["nombre vendedor", "vendedores"]) = some c ∧
        normName c = "nombre" :=
  ⟨⟨by decide, by decide⟩,
    guess_characterization.2.2 [.str "Zona", .str "Nombre"]
      ["vendedor", "ejecutivo", "asesor", "salesperson"] "nombre"
      ["nombre vendedor", "vendedores"] (by decide) (by decide)⟩

/-- C7 counterexample: the keyword `"ZONA"` and the column `"Zona"` are
equal up to case (their normalized forms agree), yet the guesser returns
absent: keywords are compared verbatim, only column names are normalized,
so matching is not case-insensitive in the keyword. -/
theorem guess_keyword_case_counterexample :
    guessRaw [.str "Zona"] ["ZONA"] = none ∧
    normName "ZONA" = normName "Zona" ∧
    guessRaw [.str "Zona"] ["zona"] = some "Zona" :=
  ⟨rfl, rfl, rfl⟩

/-- Helper: the lines 66-70 check in isolation halts with a non-empty
error list exactly when some required canonical column is absent, and the
surfaced list contains precisely the required canonical columns that are
absent — no more, no fewer (the program only reaches this check when
`unidades` and `ventas` are present, see `afterMappingCheck_exact`). -/
theorem checkRequired_exact (cols : List String) :
    (∀ m, checkRequired cols = .error m →
        m ≠ [] ∧ ∀ c, (c ∈ m ↔ c ∈ neededCols ∧ c ∉ cols)) ∧
    (checkRequired cols = .ok () ↔ ∀ c ∈ neededCols, c ∈ cols) := by
  have hmem : ∀ c, c ∈ missingCols cols ↔ c ∈ neededCols ∧ c ∉ cols := by
    intro c
    simp [missingCols, List.mem_filter]
  unfold checkRequired
  by_cases h : missingCols cols = []
  · rw [if_pos h]
    refine ⟨fun m hm => (nomatch hm), ?_⟩
    simp only [true_iff]
    intro c hc
    by_contra hnc
    have : c ∈ missingCols cols := (hmem c).mpr ⟨hc, hnc⟩
    rw [h] at this
    cases this
  · rw [if_neg h]
    refine ⟨fun m hm => ?_, ⟨fun hm => (nomatch hm), fun hall => ?_⟩⟩
    · cases hm
      exact ⟨h, hmem⟩
    · exfalso
      apply h
      rw [List.eq_nil_iff_forall_not_mem]
      intro c hc
      exact ((hmem c).mp hc).2 (hall c ((hmem c).mp hc).1)

/-- Concrete instantiation of `checkRequired_exact`: with only `region` and
`vendedor` present the check errors with `["unidades","ventas"]`, and
`ventas` is in that list precisely because it is required and absent. -/
theorem checkRequired_exact_witness :
    (["unidades", "ventas"] : List String) ≠ [] ∧
    ("ventas" ∈ (["unidades", "ventas"] : List String) ↔
      "ventas" ∈ neededCols ∧ "ventas" ∉ (["region", "vendedor"] : List String)) :=
  let h := (checkRequired_exact ["region", "vendedor"]).1 ["unidades", "ventas"] (by rfl)
  ⟨h.1, h.2 "ventas"⟩

/-- C8 counterexample: choose the same raw column `Zona` for region,
unidades and ventas (and `Nombre` for vendedor) — both `region` and
`unidades` are then absent after renaming, but the program halts at line 58
with `KeyError` naming only `unidades`: the required-and-absent `region` is
not named, so the surfaced error does not name exactly the absent canonical
columns. -/
theorem c8_keyerror_counterexample :
    mappedCols [.str "Zona", .str "Nombre"] ⟨"Zona", "Nombre", "Zona", "Zona", none⟩
      = ["ventas", "vendedor"] ∧
    afterMappingCheck ["ventas", "vendedor"] = .error (.keyError "unidades") ∧
    "region" ∈ neededCols ∧ "region" ∉ (["ventas", "vendedor"] : List String) :=
  ⟨rfl, rfl, by decide, by decide⟩

/-- C8 (amended): when a required canonical column is absent after mapping,
processing always halts, but which error surfaces depends on the column:
with `unidades` absent line 58 raises `KeyError` naming only `unidades`;
with `unidades` present and `ventas` absent line 59 raises `KeyError`
naming only `ventas`; only with both present does the lines 66-70 check
run, and the error it surfaces then names exactly the required canonical
columns that are absent, no more and no fewer.  Processing continues
exactly when all four required canonical columns are present. -/
theorem afterMappingCheck_exact (cols : List String) :
    (afterMappingCheck cols = .ok () ↔ ∀ c ∈ neededCols, c ∈ cols) ∧
    ("unidades" ∉ cols →
        afterMappingCheck cols = .error (.keyError "unidades")) ∧
    ("unidades" ∈ cols → "ventas" ∉ cols →
        afterMappingCheck cols = .error (.keyError "ventas")) ∧
    (∀ m, afterMappingCheck cols = .error (.missingError m) →
        m ≠ [] ∧ ∀ c, (c ∈ m ↔ c ∈ neededCols ∧ c ∉ cols)) := by
  by_cases hu : "unidades" ∈ cols
  · by_cases hv : "ventas" ∈ cols
    · have hform : afterMappingCheck cols
          = match checkRequired cols with
            | .ok () => .ok ()
            | .error m => Except.error (.missingError m) := by
        unfold afterMappingCheck
        rw [if_pos hu, if_pos hv]
      refine ⟨?_, fun h => absurd hu h, fun _ h => absurd hv h, ?_⟩
      · rw [hform]
        cases hr : checkRequired cols with
        | ok u =>
            cases u
            simp only [true_iff]
            exact fun c hc => ((checkRequired_exact cols).2.mp hr) c hc
        | error m =>
            constructor
            · intro h; cases h
            · intro hall
              exact absurd ((checkRequired_exact cols).2.mpr hall)
                (by rw [hr]; intro h; cases h)
      · intro m hm
        rw [hform] at hm
        cases hr : checkRequired cols with
        | ok u =>
            cases u
            rw [hr] at hm
            cases hm
        | error m2 =>
            rw [hr] at hm
            have hmm : m2 = m := by
              injection hm with h
              injection h
            subst hmm
            exact (checkRequired_exact cols).1 m2 hr
    · have hform : afterMappingCheck cols = .error (.keyError "ventas") := by
        unfold afterMappingCheck
        rw [if_pos hu, if_neg hv]
      refine ⟨?_, fun h => absurd hu h, fun _ _ => hform, fun m hm => ?_⟩
      · rw [hform]
        constructor
        · intro h; cases h
        · intro hall
          exact absurd (hall "ventas" (by decide)) hv
      · rw [hform] at hm
        cases hm
  · have hform : afterMappingCheck cols = .error (.keyError "unidades") := by
      unfold afterMappingCheck
      rw [if_neg hu]
    refine ⟨?_, fun _ => hform, fun h => absurd h hu, fun m hm => ?_⟩
    · rw [hform]
      constructor
      · intro h; cases h
      · intro hall
        exact absurd (hall "unidades" (by decide)) hu
    · rw [hform] at hm
      cases hm

/-- Concrete instantiation of `afterMappingCheck_exact`: with `unidades`
and `ventas` present and `region`, `vendedor` absent, the check runs and
surfaces exactly `["region","vendedor"]`. -/
theorem afterMappingCheck_exact_witness :
    (["region", "vendedor"] : List String) ≠ [] ∧
    ("region" ∈ (["region", "vendedor"] : List String) ↔
      "region" ∈ neededCols ∧ "region" ∉ (["unidades", "ventas"] : List String)) :=
  let h := (afterMappingCheck_exact ["unidades", "ventas"]).2.2.2
    ["region", "vendedor"] (by rfl)
  ⟨h.1, h.2 "region"⟩

/-- C2 counterexample: on columns `["Zona","Nombre","Unidades"]` with the
default guessed/fallback selections, the mapping check halts with an error
naming `region`, not `ventas`: the ventas selector falls back to the first
column `Zona`, which is also the region selection, and the rename dict
keeps only the last role inserted for `Zona` (ventas). -/
theorem c2_error_does_not_name_ventas :
    defaultMappingCheck c2Raw = .error ["region"] ∧
    "ventas" ∉ missingCols (mappedCols c2Raw (defaultMapping c2Raw)) :=
  ⟨rfl, by decide⟩

/-- C2 (amended): on columns `["Zona","Nombre","Unidades"]` the default
column-mapping step halts with an error naming exactly `region` as the
missing required column. -/
theorem c2_halts_naming_region :
    defaultMappingCheck c2Raw = .error ["region"] := rfl

/-- C10: in the rename dictionary keyed by raw column name, the last role
inserted for a column wins: the ventas role always takes effect on its
chosen column; a fecha choice overrides every other role on the same
column; the region role takes effect only if no later role chose the same
column, and is overridden (so `region` is never produced) whenever the
ventas selection coincides with it.  Consequently, on
`["Zona","Nombre","Unidades"]` with every role given a selection
(region=Zona, vendedor=Nombre, unidades=Unidades, ventas=Zona), the
required-column check still reports `region` as missing. -/
theorem rename_last_role_wins :
    (∀ cR cV cU cS c : String, c = cS →
        renameLookup cR cV cU cS none c = some "ventas") ∧
    (∀ cR cV cU cS c : String,
        renameLookup cR cV cU cS (some c) c = some "fecha") ∧
    (∀ cR cV cU cS c : String, c = cR → c ≠ cV → c ≠ cU → c ≠ cS →
        renameLookup cR cV cU cS none c = some "region") ∧
    (∀ cR cV cU cS c : String, c = cS →
        renameLookup cR cV cU cS none c ≠ some "region") ∧
    missingCols (mappedCols c2Raw ⟨"Zona", "Nombre", "Unidades", "Zona", none⟩)
      = ["region"] := by
  refine ⟨?_, ?_, ?_, ?_, by decide⟩
  · intro cR cV cU cS c hc
    simp [renameLookup, hc]
  · intro cR cV cU cS c
    simp [renameLookup]
  · intro cR cV cU cS c hR hV hU hS
    subst hR
    simp [renameLookup, hV, hU, hS]
  · intro cR cV cU cS c hc
    simp [renameLookup, hc]

/-- Concrete instantiation of `rename_last_role_wins`: choosing `Zona` for
both region and ventas renames `Zona` to `ventas`. -/
theorem rename_last_role_wins_witness :
    ("Zona" : String) = "Zona" ∧
    renameLookup "Zona" "Nombre" "Unidades" "Zona" none "Zona" = some "ventas" :=
  ⟨rfl, rename_last_role_wins.1 "Zona" "Nombre" "Unidades" "Zona" "Zona" rfl⟩

/-! ## Aggregator -/

/-- The grouping dimension of `agg(by)`: `by ∈ {"region","vendedor"}`. -/
inductive GroupBy where
  | region
  | vendedor
deriving DecidableEq, Repr

/-- The group key of a row: the grouping column's value, `none` for NaN
(`groupby(by, dropna=True)` drops those rows). -/
def keyOf : GroupBy → Row → Option String
  | .region, r => r.region.str?
  | .vendedor, r => r.vendedor.str?

/-- A pandas column sum: NaN cells are skipped, i.e. contribute 0. -/
def sumOpt (l : List (Option ℚ)) : ℚ := (l.map (fun o => o.getD 0)).sum

/-- The rows of the group keyed `k`. -/
def groupRows (t : Table) (g : GroupBy) (k : String) : Table :=
  t.filter (fun r => keyOf g r == some k)

/-- Sum `unidades=("unidades","sum")` for one group. -/
def groupUnidades (t : Table) (g : GroupBy) (k : String) : ℚ :=
  sumOpt ((groupRows t g k).map Row.unidades)

/-- Sum `ventas=("ventas","sum")` for one group. -/
def groupVentas (t : Table) (g : GroupBy) (k : String) : ℚ :=
  sumOpt ((groupRows t g k).map Row.ventas)

/-- The distinct non-missing group keys of the table (the index of the
`groupby` result; its order is abstracted, every statement below uses only
membership and sums). -/
def aggKeys (t : Table) (g : GroupBy) : List String :=
  (t.filterMap (keyOf g)).dedup

/-- Total `total = g["ventas"].sum()`: the sum of the per-group sales sums. -/
def aggTotal (t : Table) (g : GroupBy) : ℚ :=
  ((aggKeys t g).map (groupVentas t g)).sum

/-- The sum of `ventas` over the rows whose group key is non-missing (the
spec's `total_filtered_ventas`). -/
def rowTotal (t : Table) (g : GroupBy) : ℚ :=
  sumOpt ((t.filter (fun r => (keyOf g r).isSome)).map Row.ventas)

/-- Round-half-to-even to an integer, as Python / numpy `round` behave on
exact values. -/
def roundHalfEven (q : ℚ) : ℤ :=
  if q - ⌊q⌋ < 1/2 then ⌊q⌋
  else if 1/2 < q - ⌊q⌋ then ⌊q⌋ + 1
  else if ⌊q⌋ % 2 = 0 then ⌊q⌋ else ⌊q⌋ + 1

/-- Rounding `.round(2)`: round to two decimal places, half to even. -/
def round2 (q : ℚ) : ℚ := (roundHalfEven (q * 100) : ℚ) / 100

/-- One row of the aggregated frame returned by `agg(by)`. -/
structure AggRow where
  key : String
  unidades : ℚ
  ventas : ℚ
  pct_ventas : ℚ
deriving DecidableEq, Repr

/-- Aggregation `agg(by)`: group the table by the chosen dimension dropping missing
keys, sum `unidades` and `ventas` per group, and set
`g["pct_ventas"] = (g["ventas"]/total*100).round(2) if total else 0`. -/
def agg (t : Table) (g : GroupBy) : List AggRow :=
  let total := aggTotal t g
  (aggKeys t g).map (fun k =>
    { key := k
      unidades := groupUnidades t g k
      ventas := groupVentas t g k
      pct_ventas :=
        if total = 0 then 0 else round2 (groupVentas t g k / total * 100) })

/-- The spec's example table: North/Ana 10u $100, North/Beto 5u $50,
South/Ana 2u $20. -/
def exTable : Table :=
  [⟨.s "North", .s "Ana", some 10, some 100⟩,
   ⟨.s "North", .s "Beto", some 5, some 50⟩,
   ⟨.s "South", .s "Ana", some 2, some 20⟩]

theorem sumOpt_nil : sumOpt [] = 0 := rfl

theorem sumOpt_cons (a : Option ℚ) (l : List (Option ℚ)) :
    sumOpt (a :: l) = a.getD 0 + sumOpt l := by
  simp [sumOpt]

theorem sum_map_const_zero (l : List String) :
    (l.map (fun _ => (0 : ℚ))).sum = 0 := by
  induction l with
  | nil => simp
  | cons a l ih => simp [ih]

theorem sum_map_add (l : List String) (f h : String → ℚ) :
    (l.map (fun k => f k + h k)).sum = (l.map f).sum + (l.map h).sum := by
  induction l with
  | nil => simp
  | cons a l ih => simp [ih]; ring

theorem sum_map_ite (s : String) (x : ℚ) (keys : List String) :
    keys.Nodup →
      (keys.map (fun k => if s = k then x else 0)).sum
        = if s ∈ keys then x else 0 := by
  induction keys with
  | nil => simp
  | cons b l ih =>
      intro hnd
      rw [List.nodup_cons] at hnd
      by_cases hs : s = b
      · subst hs
        have : s ∉ l := hnd.1
        simp [ih hnd.2, this]
      · simp [hs, ih hnd.2, List.mem_cons]

/-- Row predicate "the group key is present and among `keys`". -/
def keyIn (g : GroupBy) (keys : List String) (r : Row) : Bool :=
  match keyOf g r with
  | some s => decide (s ∈ keys)
  | none => false

/-- Summing a column group-by-group over a duplicate-free key list equals
summing it over the rows whose key lies in that list. -/
theorem sum_groups (v : Row → Option ℚ) (g : GroupBy) (keys : List String)
    (hnd : keys.Nodup) :
    ∀ t : Table,
      (keys.map (fun k =>
          sumOpt ((t.filter (fun r => keyOf g r == some k)).map v))).sum
        = sumOpt ((t.filter (keyIn g keys)).map v) := by
  intro t
  induction t with
  | nil => simp [sumOpt, sum_map_const_zero]
  | cons r t ih =>
      have hsplit : ∀ k : String,
          sumOpt (((r :: t).filter (fun x => keyOf g x == some k)).map v)
            = (if keyOf g r = some k then (v r).getD 0 else 0)
              + sumOpt ((t.filter (fun x => keyOf g x == some k)).map v) := by
        intro k
        rw [List.filter_cons]
        by_cases h : keyOf g r = some k
        · simp [h, sumOpt_cons]
        · simp [h]
      calc (keys.map (fun k =>
              sumOpt (((r :: t).filter (fun x => keyOf g x == some k)).map v))).sum
          = (keys.map (fun k =>
              (if keyOf g r = some k then (v r).getD 0 else 0)
                + sumOpt ((t.filter (fun x => keyOf g x == some k)).map v))).sum := by
            congr 1
            exact List.map_congr_left (fun k _ => hsplit k)
        _ = (keys.map (fun k =>
              if keyOf g r = some k then (v r).getD 0 else 0)).sum
            + (keys.map (fun k =>
              sumOpt ((t.filter (fun x => keyOf g x == some k)).map v))).sum :=
            sum_map_add keys _ _
        _ = (keys.map (fun k =>
              if keyOf g r = some k then (v r).getD 0 else 0)).sum
            + sumOpt ((t.filter (keyIn g keys)).map v) := by rw [ih]
        _ = sumOpt (((r :: t).filter (keyIn g keys)).map v) := by
            rw [List.filter_cons]
            cases hk : keyOf g r with
            | some s =>
                have hfun : (fun k => if some s = some k then (v r).getD 0 else 0)
                      = (fun k => if s = k then (v r).getD 0 else 0) := by
                  funext k; simp
                rw [hfun, sum_map_ite s _ keys hnd]
                by_cases hmem : s ∈ keys
                · have hin : keyIn g keys r = true := by simp [keyIn, hk, hmem]
                  simp [hmem, hin, sumOpt_cons]
                · have hin : keyIn g keys r = false := by simp [keyIn, hk, hmem]
                  simp [hmem, hin]
            | none =>
                have hmap : (keys.map (fun k =>
                    if keyOf g r = some k then (v r).getD 0 else 0)).sum
                      = 0 := by
                  rw [show (fun k => if keyOf g r = some k then (v r).getD 0 else 0)
                        = (fun _ => (0:ℚ)) by funext k; rw [hk]; simp]
                  exact sum_map_const_zero keys
                simp [hmap, keyIn, hk]

/-- Identity: `total = g["ventas"].sum()` (the sum of the per-group sums) equals the
sum of `ventas` over the rows whose group key is non-missing. -/
theorem aggTotal_eq_rowTotal (t : Table) (g : GroupBy) :
    aggTotal t g = rowTotal t g := by
  unfold aggTotal rowTotal
  have h := sum_groups Row.ventas g (aggKeys t g) (List.nodup_dedup _) t
  have hg : (aggKeys t g).map (groupVentas t g)
      = (aggKeys t g).map (fun k =>
          sumOpt ((t.filter (fun r => keyOf g r == some k)).map Row.ventas)) := rfl
  rw [hg, h]
  congr 1
  apply congrArg
  apply List.filter_congr
  intro r hr
  cases hk : keyOf g r with
  | some s =>
      have hmem : s ∈ aggKeys t g :=
        List.mem_dedup.mpr (List.mem_filterMap.mpr ⟨r, hr, hk⟩)
      simp [keyIn, hk, hmem]
  | none => simp [keyIn, hk]

/-- C5: the sum of the `ventas` field over the Aggregate Rows of
`agg(t, g)` equals the sum of `ventas` over the rows of `t` whose grouping
value is non-missing. -/
theorem agg_preserves_ventas_sum (t : Table) (g : GroupBy) :
    ((agg t g).map AggRow.ventas).sum = rowTotal t g := by
  have hmap : (agg t g).map AggRow.ventas = (aggKeys t g).map (groupVentas t g) := by
    simp [agg, List.map_map]
  rw [hmap]
  exact aggTotal_eq_rowTotal t g

/-- C1: `agg(t, g)` drops the rows whose grouping value is missing,
produces one Aggregate Row per distinct non-missing grouping value (the
keys are duplicate-free and are exactly the values occurring in the table),
each holding the group's `unidades` sum and `ventas` sum; and the
percentage is `round2` of the group's share of the sum of `ventas` over all
non-excluded rows, except that it is 0 for every group when that total is
exactly zero (no division is performed then). -/
theorem agg_row_characterization (t : Table) (g : GroupBy) :
    ((agg t g).map AggRow.key).Nodup ∧
    (∀ k, k ∈ (agg t g).map AggRow.key ↔ ∃ r ∈ t, keyOf g r = some k) ∧
    (∀ a ∈ agg t g,
        a.unidades = groupUnidades t g a.key ∧
        a.ventas = groupVentas t g a.key ∧
        a.pct_ventas =
          if rowTotal t g = 0 then 0
          else round2 (a.ventas / rowTotal t g * 100)) := by
  have hkeys : (agg t g).map AggRow.key = aggKeys t g := by
    simp [agg, List.map_map, Function.comp_def]
  refine ⟨?_, ?_, ?_⟩
  · rw [hkeys]
    exact List.nodup_dedup _
  · intro k
    rw [hkeys]
    simp [aggKeys, List.mem_dedup, List.mem_filterMap]
  · intro a ha
    simp only [agg] at ha
    obtain ⟨k, hk, rfl⟩ := List.mem_map.mp ha
    refine ⟨rfl, rfl, ?_⟩
    simp only [aggTotal_eq_rowTotal t g]

theorem abs_roundHalfEven_sub (q : ℚ) : |(roundHalfEven q : ℚ) - q| ≤ 1/2 := by
  have hfl := Int.floor_le q
  have hlt := Int.lt_floor_add_one q
  unfold roundHalfEven
  split_ifs with h1 h2 h3 <;> rw [abs_le] <;> constructor <;> push_cast <;> linarith

theorem abs_round2_sub (q : ℚ) : |round2 q - q| ≤ 1/200 := by
  have h := abs_roundHalfEven_sub (q * 100)
  have heq : round2 q - q = ((roundHalfEven (q * 100) : ℚ) - q * 100) / 100 := by
    unfold round2
    ring
  rw [heq, abs_div, abs_of_pos (by norm_num : (0:ℚ) < 100)]
  linarith

theorem sum_map_div_mul (l : List String) (f : String → ℚ) (c d : ℚ) :
    (l.map (fun k => f k / c * d)).sum = (l.map f).sum / c * d := by
  induction l with
  | nil => simp
  | cons a l ih =>
      simp [ih]
      ring

theorem sum_abs_err (f h : String → ℚ) (c : ℚ) :
    ∀ l : List String, (∀ k ∈ l, |f k - h k| ≤ c) →
      |(l.map f).sum - (l.map h).sum| ≤ l.length * c := by
  intro l
  induction l with
  | nil => simp
  | cons a l ih =>
      intro hc
      have h1 := hc a (List.mem_cons_self a l)
      have h2 := ih (fun k hk => hc k (List.mem_cons_of_mem a hk))
      simp only [List.map_cons, List.sum_cons, List.length_cons]
      have habs : |f a + (l.map f).sum - (h a + (l.map h).sum)|
          ≤ |f a - h a| + |(l.map f).sum - (l.map h).sum| := by
        have := abs_add (f a - h a) ((l.map f).sum - (l.map h).sum)
        have harr : f a + (l.map f).sum - (h a + (l.map h).sum)
            = (f a - h a) + ((l.map f).sum - (l.map h).sum) := by ring
        rw [harr]
        exact this
      push_cast
      calc |f a + (l.map f).sum - (h a + (l.map h).sum)|
          ≤ |f a - h a| + |(l.map f).sum - (l.map h).sum| := habs
        _ ≤ c + l.length * c := add_le_add h1 h2
        _ = (l.length + 1) * c := by ring

/-- C6: when the total filtered sales are positive, the percentages of the
Aggregate Rows sum to 100 up to the error of rounding each row
independently to two decimals (at most 1/200 per row); when the total is
exactly zero, every row's percentage is 0. -/
theorem agg_pct_sum_characterization (t : Table) (g : GroupBy) :
    (0 < rowTotal t g →
      |((agg t g).map AggRow.pct_ventas).sum - 100|
        ≤ ((agg t g).length : ℚ) / 200) ∧
    (rowTotal t g = 0 → ∀ a ∈ agg t g, a.pct_ventas = 0) := by
  constructor
  · intro htot
    have hT : aggTotal t g = rowTotal t g := aggTotal_eq_rowTotal t g
    have hTne : aggTotal t g ≠ 0 := by
      rw [hT]
      exact ne_of_gt htot
    have hpcts : (agg t g).map AggRow.pct_ventas
        = (aggKeys t g).map
            (fun k => round2 (groupVentas t g k / aggTotal t g * 100)) := by
      simp [agg, List.map_map, Function.comp_def, hTne]
    have hlen : (agg t g).length = (aggKeys t g).length := by
      simp [agg]
    have hexact : ((aggKeys t g).map
        (fun k => groupVentas t g k / aggTotal t g * 100)).sum = 100 := by
      rw [sum_map_div_mul]
      rw [show ((aggKeys t g).map (groupVentas t g)).sum = aggTotal t g from rfl]
      field_simp
    have herr := sum_abs_err
      (fun k => round2 (groupVentas t g k / aggTotal t g * 100))
      (fun k => groupVentas t g k / aggTotal t g * 100) (1/200)
      (aggKeys t g) (fun k _ => abs_round2_sub _)
    rw [hpcts, hlen]
    calc |((aggKeys t g).map
            (fun k => round2 (groupVentas t g k / aggTotal t g * 100))).sum - 100|
        = |((aggKeys t g).map
            (fun k => round2 (groupVentas t g k / aggTotal t g * 100))).sum
          - ((aggKeys t g).map
            (fun k => groupVentas t g k / aggTotal t g * 100)).sum| := by
          rw [hexact]
      _ ≤ (aggKeys t g).length * (1/200) := herr
      _ = ((aggKeys t g).length : ℚ) / 200 := by ring
  · intro h0 a ha
    have hT : aggTotal t g = 0 := by
      rw [aggTotal_eq_rowTotal t g, h0]
    simp only [agg, hT] at ha
    obtain ⟨k, hk, rfl⟩ := List.mem_map.mp ha
    simp

theorem round2_eval_up (q : ℚ) (n : ℤ) (hn : ⌊q * 100⌋ = n) (h : 1/2 < q * 100 - n) :
    round2 q = (n + 1) / 100 := by
  unfold round2 roundHalfEven
  rw [hn, if_neg (by linarith), if_pos h]
  push_cast
  ring

theorem round2_eval_down (q : ℚ) (n : ℤ) (hn : ⌊q * 100⌋ = n) (h : q * 100 - n < 1/2) :
    round2 q = n / 100 := by
  unfold round2 roundHalfEven
  rw [hn, if_pos h]

theorem aggKeys_exTable : aggKeys exTable .region = ["North", "South"] := by decide

theorem agg_exTable_region :
    agg exTable .region =
      [⟨"North", 15, 150, 2206/25⟩, ⟨"South", 2, 20, 294/25⟩] := by
  have hgN : groupRows exTable .region "North"
      = [⟨.s "North", .s "Ana", some 10, some 100⟩,
         ⟨.s "North", .s "Beto", some 5, some 50⟩] := by decide
  have hgS : groupRows exTable .region "South"
      = [⟨.s "South", .s "Ana", some 2, some 20⟩] := by decide
  have hN : groupVentas exTable .region "North" = 150 := by
    norm_num [groupVentas, hgN, sumOpt]
  have hS : groupVentas exTable .region "South" = 20 := by
    norm_num [groupVentas, hgS, sumOpt]
  have hNu : groupUnidades exTable .region "North" = 15 := by
    norm_num [groupUnidades, hgN, sumOpt]
  have hSu : groupUnidades exTable .region "South" = 2 := by
    norm_num [groupUnidades, hgS, sumOpt]
  have htot : aggTotal exTable .region = 170 := by
    rw [aggTotal, aggKeys_exTable]
    norm_num [hN, hS]
  have hpN : round2 ((150 : ℚ) / 170 * 100) = 2206/25 := by
    rw [round2_eval_up ((150 : ℚ) / 170 * 100) 8823 (by norm_num [Int.floor_eq_iff]) (by norm_num)]
    norm_num
  have hpS : round2 ((20 : ℚ) / 170 * 100) = 294/25 := by
    rw [round2_eval_down ((20 : ℚ) / 170 * 100) 1176 (by norm_num [Int.floor_eq_iff]) (by norm_num)]
    norm_num
  rw [show agg exTable .region
      = (aggKeys exTable .region).map (fun k =>
          { key := k
            unidades := groupUnidades exTable .region k
            ventas := groupVentas exTable .region k
            pct_ventas :=
              if aggTotal exTable .region = 0 then 0
              else round2 (groupVentas exTable .region k / aggTotal exTable .region * 100) })
      from rfl]
  rw [aggKeys_exTable]
  simp [hN, hS, hNu, hSu, htot, hpN, hpS]

theorem rowTotal_exTable : rowTotal exTable .region = 170 := by
  have hf : exTable.filter (fun r => (keyOf .region r).isSome) = exTable := by decide
  unfold rowTotal
  rw [hf]
  norm_num [exTable, sumOpt]

/-- Concrete instantiation of `agg_row_characterization`: the North row of
the spec's example aggregation carries sums 15 and 150 and percentage
88.24, matching its group sums and the rounded share of the row total. -/
theorem agg_row_characterization_witness :
    (⟨"North", 15, 150, 2206/25⟩ : AggRow) ∈ agg exTable .region ∧
    ((⟨"North", 15, 150, 2206/25⟩ : AggRow).unidades
        = groupUnidades exTable .region "North" ∧
     (⟨"North", 15, 150, 2206/25⟩ : AggRow).ventas
        = groupVentas exTable .region "North" ∧
     (⟨"North", 15, 150, 2206/25⟩ : AggRow).pct_ventas =
       if rowTotal exTable .region = 0 then 0
       else round2 ((⟨"North", 15, 150, 2206/25⟩ : AggRow).ventas
              / rowTotal exTable .region * 100)) :=
  have hmem : (⟨"North", 15, 150, 2206/25⟩ : AggRow) ∈ agg exTable .region := by
    rw [agg_exTable_region]
    exact List.mem_cons_self _ _
  ⟨hmem, (agg_row_characterization exTable .region).2.2 _ hmem⟩

/-- Concrete instantiation of `agg_pct_sum_characterization`: on the spec's
example table the percentages 88.24 and 11.76 sum to exactly 100, within
the 2·(1/200) bound. -/
theorem agg_pct_sum_characterization_witness :
    0 < rowTotal exTable .region ∧
    |((agg exTable .region).map AggRow.pct_ventas).sum - 100|
      ≤ ((agg exTable .region).length : ℚ) / 200 :=
  have hpos : 0 < rowTotal exTable .region := by
    rw [rowTotal_exTable]
    norm_num
  ⟨hpos, (agg_pct_sum_characterization exTable .region).1 hpos⟩

/-! ## Type normalizer -/

/-- A raw cell of a numeric column before coercion: already numeric, a
string, or empty/NaN. -/
inductive Cell where
  | num (q : ℚ)
  | str (s : String)
  | blank
deriving DecidableEq, Repr

/-- The value of a decimal digit string, most significant digit first
(callers check that every character is a digit). -/
def digitsVal (cs : List Char) : ℕ :=
  cs.foldl (fun acc c => 10 * acc + (c.toNat - 48)) 0

/-- Parse an unsigned decimal literal `digits[.digits]` with at least one
digit. -/
def parseUnsigned (cs : List Char) : Option ℚ :=
  let intPart := cs.takeWhile Char.isDigit
  let rest := cs.dropWhile Char.isDigit
  match rest with
  | [] => if intPart.isEmpty then none else some (digitsVal intPart : ℚ)
  | '.' :: frac =>
      if frac.all Char.isDigit && !(intPart.isEmpty && frac.isEmpty) then
        some ((digitsVal intPart : ℚ) + (digitsVal frac : ℚ) / 10 ^ frac.length)
      else none
  | _ => none

/-- Models the number parsing of `pd.to_numeric` on a string cell,
restricted to optionally signed plain decimal literals with surrounding
whitespace: any string it cannot parse yields `none`. -/
def parseDecimal (s : String) : Option ℚ :=
  match ((s.data.dropWhile Char.isWhitespace).reverse.dropWhile
      Char.isWhitespace).reverse with
  | '-' :: rest => (parseUnsigned rest).map (fun q => -q)
  | '+' :: rest => parseUnsigned rest
  | cs => parseUnsigned cs

/-- Coercion `pd.to_numeric(..., errors="coerce")` on one cell: numbers pass
through, strings are parsed, anything unparseable or empty becomes the
missing value `none` — no error is ever signalled. -/
def toNumericCell : Cell → Option ℚ
  | .num q => some q
  | .str s => parseDecimal s
  | .blank => none

/-- Coercion `df[col] = pd.to_numeric(df[col], errors="coerce")` over a column. -/
def toNumeric (col : List Cell) : List (Option ℚ) := col.map toNumericCell

/-- C9: numeric coercion is total — it maps every cell of the column to an
optional number (one output per input, never an error): a cell that fails
to parse becomes the missing value, `"abc"` becomes missing, `"42.5"`
becomes 42.5, numbers pass through and empty cells stay missing. -/
theorem toNumeric_never_raises :
    (∀ col : List Cell, (toNumeric col).length = col.length) ∧
    toNumericCell (.str "abc") = none ∧
    toNumericCell (.str "42.5") = some (85/2) ∧
    (∀ q : ℚ, toNumericCell (.num q) = some q) ∧
    toNumericCell .blank = none := by
  refine ⟨fun col => List.length_map _ _, rfl, ?_, fun q => rfl, rfl⟩
  have h : toNumericCell (.str "42.5")
      = some ((digitsVal ['4', '2'] : ℚ)
          + (digitsVal ['5'] : ℚ) / 10 ^ (['5'].length)) := rfl
  have d1 : digitsVal ['4', '2'] = 42 := by decide
  have d2 : digitsVal ['5'] = 5 := by decide
  rw [h, d1, d2]
  norm_num
